import Mathlib

/-!
Verification of `fileMerger.py` (image feature dataset merger).

Shallow embedding of the script `src/fileMerger.py`.  The script scans a base
directory (`2kyr_new/`) and, depending on two boolean switches, the optional
directories `haralick_files/` and `haar_files/`, loads every `*.csv` file it
finds (sorted alphabetically), renames the columns of each loaded table by
prepending an identifier derived from the filename, concatenates all loaded
tables along the column axis with `pd.concat(dfs, axis=1)`, and writes the
result to a CSV file whose name encodes which optional groups were merged.

Modelling choices:
* a pandas `DataFrame` is a `Table`: a list of column names plus a list of
  rows, a cell being `Option String` with `none` standing for a missing
  value (NaN);
* the outcome of `pd.read_csv` on one file is `FileData`: either a parsed
  table or an exception message (any parse failure);
* a directory is a list of `(filename, read outcome)` pairs and the
  filesystem gives each of the three directories as `Option Dir`, `none`
  standing for a directory that does not exist (`os.listdir` on the base
  directory then raises an uncaught `OSError`; the optional directories are
  guarded by `os.path.isdir`);
* the platform separator `os.sep` is `/` (the script targets a POSIX host);
* every `print` of the script becomes an entry appended to a log.
-/

namespace FileMerger

/-- A cell of a table; `none` models a missing value (pandas NaN). -/
abbrev Cell := Option String

/-- A pandas DataFrame as the script sees it: ordered column names and
ordered rows of cells (the default `RangeIndex` is the row position). -/
structure Table where
  cols : List String
  rows : List (List Cell)
deriving DecidableEq, Repr

/-- Pandas `df.empty`: a DataFrame is empty iff one of its axes has length zero. -/
def Table.isEmpty (t : Table) : Bool :=
  t.rows.isEmpty || t.cols.isEmpty

/-- Outcome of `pd.read_csv` on one file: a parsed table, or the message of
the exception raised while reading/parsing. -/
inductive FileData where
  | ok (t : Table)
  | err (msg : String)
deriving DecidableEq, Repr

/-- A directory: the files it holds, as (filename, read outcome) pairs.
Filenames in a real directory are distinct. -/
abbrev Dir := List (String × FileData)

/-- The filesystem the script runs against; `none` models a directory that
does not exist. -/
structure FS where
  base : Option Dir
  hara : Option Dir
  haar : Option Dir

/-- The separator `os.sep` on the POSIX host the script targets. -/
def sep : String := "/"

/-- Script constant `folder_path = '2kyr_new' + os.sep`. -/
def folder_path : String := "2kyr_new" ++ sep

/-- Script constant `folder_haralick = 'haralick_files' + os.sep`. -/
def folder_haralick : String := "haralick_files" ++ sep

/-- Script constant `folder_haarlike = 'haar_files' + os.sep`. -/
def folder_haarlike : String := "haar_files" ++ sep

/-- Position of the last `'.'` in a character list, if any. -/
def lastDot : List Char → Option Nat
  | [] => none
  | c :: rest =>
    match lastDot rest with
    | some i => some (i + 1)
    | none => if c = '.' then some 0 else none

/-- Root component of `os.path.splitext` for a bare filename (no path
separators): cut at the last dot, unless every character before that dot is
itself a dot (leading dots name a hidden file, not an extension). -/
def splitextRoot (s : String) : String :=
  match lastDot s.data with
  | some i => if (s.data.take i).any (fun c => c ≠ '.') then ⟨s.data.take i⟩ else s
  | none => s

/-- Does `p` occur at the head of `l`? -/
def startsWithL : List Char → List Char → Bool
  | [], _ => true
  | _ :: _, [] => false
  | p :: ps, c :: cs => p == c && startsWithL ps cs

/-- Python `str.endswith(sfx)`, on the characters of the two strings: does
`sfx` occur at the end of `l`? -/
def endsWithL (l sfx : List Char) : Bool :=
  startsWithL sfx.reverse l.reverse

/-- Python `str.replace(pat, repl)` for a non-empty pattern, with explicit
fuel so that the recursion is structural: replace the non-overlapping
occurrences of `pat`, scanning left to right.  Each step consumes at least
one character, so fuel `l.length` always suffices. -/
def replAllFuel (pat repl : List Char) : Nat → List Char → List Char
  | _, [] => []
  | 0, l => l
  | fuel + 1, c :: rest =>
    if pat ≠ [] ∧ startsWithL pat (c :: rest) then
      repl ++ replAllFuel pat repl fuel (rest.drop (pat.length - 1))
    else
      c :: replAllFuel pat repl fuel rest

/-- Python `str.replace(pat, repl)` for a non-empty pattern.  (The script
only calls it with the non-empty patterns `"_haralick"` and `"_haar"`.) -/
def replAll (pat repl : List Char) (l : List Char) : List Char :=
  replAllFuel pat repl l.length l

/-- Python `str.replace` on `String`s (non-empty pattern). -/
def replAllStr (pat repl s : String) : String :=
  ⟨replAll pat.data repl.data s.data⟩

/-- Column rename `df.columns = [f"\x7bname\x7d_\x7bcol\x7d" for col in df.columns]`. -/
def renameCols (idr : String) (t : Table) : Table :=
  { t with cols := t.cols.map (fun col => idr ++ "_" ++ col) }

/-- Lexicographic comparison of two character sequences by code point:
how Python `sorted` compares two strings. -/
def leChars : List Char → List Char → Bool
  | [], _ => true
  | _ :: _, [] => false
  | a :: as, b :: bs => if a = b then leChars as bs else decide (a < b)

/-- Ordering of directory entries by filename, as Python `sorted` compares
the listed names. -/
def nameLE (a b : String × FileData) : Prop :=
  leChars a.1.data b.1.data = true

instance : DecidableRel nameLE :=
  fun a b => inferInstanceAs (Decidable (leChars a.1.data b.1.data = true))

lemma leChars_total (as bs : List Char) :
    leChars as bs = true ∨ leChars bs as = true := by
  induction as generalizing bs with
  | nil => exact Or.inl rfl
  | cons a as ih =>
    cases bs with
    | nil => exact Or.inr rfl
    | cons b bs =>
      by_cases hab : a = b
      · subst hab
        simpa only [leChars, if_pos rfl] using ih bs
      · rcases lt_or_gt_of_ne hab with h | h
        · left
          simp [leChars, hab, h]
        · right
          simp [leChars, Ne.symm hab, h]

lemma leChars_trans (as bs cs : List Char)
    (h1 : leChars as bs = true) (h2 : leChars bs cs = true) :
    leChars as cs = true := by
  induction as generalizing bs cs with
  | nil => rfl
  | cons a as ih =>
    cases bs with
    | nil => simp [leChars] at h1
    | cons b bs =>
      cases cs with
      | nil => simp [leChars] at h2
      | cons c cs =>
        simp only [leChars] at h1 h2 ⊢
        by_cases hab : a = b
        · subst hab
          simp only [if_pos rfl] at h1
          by_cases hac : a = c
          · subst hac
            simp only [if_pos rfl] at h2 ⊢
            exact ih bs cs h1 h2
          · simp only [if_neg hac] at h2 ⊢
            exact h2
        · simp only [if_neg hab] at h1
          have hlt : a < b := of_decide_eq_true h1
          by_cases hbc : b = c
          · subst hbc
            simp [if_neg hab, hlt]
          · have hltbc : b < c := of_decide_eq_true (by simpa [hbc] using h2)
            have hac : a < c := lt_trans hlt hltbc
            simp [ne_of_lt hac, hac]

instance : IsTotal (String × FileData) nameLE :=
  ⟨fun a b => leChars_total a.1.data b.1.data⟩

instance : IsTrans (String × FileData) nameLE :=
  ⟨fun a b c => leChars_trans a.1.data b.1.data c.1.data⟩

/-- The comparator agrees with the lexicographic order on `List Char`. -/
lemma leChars_iff_not_lt (as bs : List Char) :
    leChars as bs = true ↔ ¬ bs < as := by
  induction as generalizing bs with
  | nil =>
    refine iff_of_true rfl ?_
    intro h
    cases h
  | cons a as ih =>
    cases bs with
    | nil =>
      refine iff_of_false (by simp [leChars]) ?_
      intro hn
      exact hn List.Lex.nil
    | cons b bs =>
      simp only [leChars]
      by_cases hab : a = b
      · subst hab
        rw [if_pos rfl, ih bs]
        constructor
        · intro h hlt
          cases hlt with
          | cons h' => exact h h'
          | rel h' => exact absurd h' (lt_irrefl a)
        · intro h hlt
          exact h (List.Lex.cons hlt)
      · rw [if_neg hab]
        rcases lt_or_gt_of_ne hab with h | h
        · refine iff_of_true (by simpa using h) ?_
          intro hlt
          cases hlt with
          | cons h' => exact hab rfl
          | rel h' => exact absurd h' (asymm h)
        · refine iff_of_false (by simpa using asymm h) ?_
          intro hn
          exact hn (List.Lex.rel h)

/-- The comparator is exactly the lexicographic order on `String`. -/
lemma leChars_iff_le (a b : String) :
    leChars a.data b.data = true ↔ a ≤ b := by
  rw [leChars_iff_not_lt]
  exact (not_congr String.lt_iff_toList_lt).symm

/-- Discovery `sorted([f for f in os.listdir(folder) if f.endswith('.csv')])`, keeping
each name paired with its read outcome. -/
def csvEntries (d : Dir) : Dir :=
  List.insertionSort nameLE (d.filter (fun e => endsWithL e.1.data ".csv".data))

/-- One iteration of the base-directory loop: print the `Merging:` line,
read the file; on an exception log and move on; if the frame is empty log
and skip; otherwise rename the columns with the stem of the filename
(`os.path.splitext(file)[0]`, no suffix stripped) and append the table. -/
def baseStep (acc : List Table × List String) (e : String × FileData) :
    List Table × List String :=
  let file := e.1
  let lg := acc.2 ++ ["Merging: " ++ (folder_path ++ file)]
  match e.2 with
  | .err msg => (acc.1, lg ++ ["Error reading file " ++ file ++ ": " ++ msg])
  | .ok df =>
    if df.isEmpty then
      (acc.1, lg ++ ["The file " ++ file ++ " is empty. Skipping."])
    else
      (acc.1 ++ [renameCols (splitextRoot file) df], lg)

/-- One iteration of a Haralick/Haar loop: `folder` is the directory path,
`sfx` the substring removed from the stem (`"_haralick"` or `"_haar"`), and
`echoFile` whether the loop first prints the bare filename (the Haar loop
does, the Haralick loop does not). -/
def groupStep (folder sfx : String) (echoFile : Bool)
    (acc : List Table × List String) (e : String × FileData) :
    List Table × List String :=
  let file := e.1
  let lg := acc.2 ++ (if echoFile then [file] else [])
      ++ ["\tAdding: " ++ (folder ++ file)]
  match e.2 with
  | .err msg => (acc.1, lg ++ ["Error reading file " ++ file ++ ": " ++ msg])
  | .ok dfh =>
    if dfh.isEmpty then
      (acc.1, lg ++ ["The file " ++ file ++ " is empty. Skipping."])
    else
      (acc.1 ++ [renameCols (replAllStr sfx "" (splitextRoot file)) dfh], lg)

/-- Tables contributed by one base-directory file. -/
def baseContrib (e : String × FileData) : List Table :=
  match e.2 with
  | .err _ => []
  | .ok df =>
    if df.isEmpty then [] else [renameCols (splitextRoot e.1) df]

/-- Tables contributed by one Haralick/Haar file. -/
def groupContrib (sfx : String) (e : String × FileData) : List Table :=
  match e.2 with
  | .err _ => []
  | .ok dfh =>
    if dfh.isEmpty then []
    else [renameCols (replAllStr sfx "" (splitextRoot e.1)) dfh]

/-- The tables the base-directory loop accumulates, in order. -/
def baseTables (d : Dir) : List Table :=
  ((csvEntries d).foldl baseStep ([], [])).1

/-- The tables a Haralick/Haar loop accumulates, in order. -/
def groupTables (folder sfx : String) (echoFile : Bool) (d : Dir) : List Table :=
  ((csvEntries d).foldl (groupStep folder sfx echoFile) ([], [])).1

/-- Tables an optional group adds: nothing when its switch is off or its
directory is missing. -/
def optTables (flag : Bool) (dir? : Option Dir) (folder sfx : String)
    (echoFile : Bool) : List Table :=
  if flag then
    match dir? with
    | some d => groupTables folder sfx echoFile d
    | none => []
  else []

/-- The full list of loaded tables in the order the script appends them:
base files (sorted), then Haralick files (sorted, if enabled), then Haar
files (sorted, if enabled). -/
def allTables (fs : FS) (merge_haralick merge_haar : Bool) : List Table :=
  (match fs.base with | some d => baseTables d | none => [])
    ++ optTables merge_haralick fs.hara folder_haralick "_haralick" false
    ++ optTables merge_haar fs.haar folder_haarlike "_haar" true

/-- Row `i` of table `t` as `pd.concat(axis=1)` aligns it on the union of
the `RangeIndex`es: the table's own row when it has one, a row of missing
values otherwise. -/
def rowAt (t : Table) (i : Nat) : List Cell :=
  match t.rows.get? i with
  | some r => r
  | none => List.replicate t.cols.length none

/-- Concatenation `pd.concat(dfs, axis=1)` with the default outer join on the default
`RangeIndex`es: the result has all columns side by side and as many rows as
the tallest input, shorter inputs padded with missing values. -/
def concatCols (ts : List Table) : Table :=
  let h := (ts.map (fun t => t.rows.length)).foldr Nat.max 0
  { cols := (ts.map Table.cols).flatten
    rows := (List.range h).map (fun i => (ts.map (fun t => rowAt t i)).flatten) }

/-- The suffix lookup driven by the two switches. -/
def suffixFor (merge_haralick merge_haar : Bool) : String :=
  if merge_haralick && merge_haar then "_AllColumns_imgfeatures"
  else if merge_haralick && !merge_haar then "_AllColumns_onlyHaralick"
  else if !merge_haralick && merge_haar then "_AllColumns_onlyHaar"
  else "_AllColumns"

/-- How a run of the script ends. -/
inductive RunResult where
  /-- The `os.listdir` call raised on a missing base directory (uncaught). -/
  | osError
  /-- The `exit(1)` path after the `if not dfs` check: no output file written. -/
  | exitFail
  /-- The `merged_df.to_csv(output_filename, index=False)` line was reached. -/
  | output (filename : String) (t : Table)
deriving DecidableEq, Repr

/-- Serialization `merged_df.to_csv(..., index=False)`: the written lines as field lists —
the header row is exactly the column names (no index column) and each data
row renders a missing value as the empty field. -/
def toCsvLines (t : Table) : List (List String) :=
  t.cols :: t.rows.map (fun r => r.map (fun c => c.getD ""))

/-- The whole script, from `os.listdir(folder_path)` to the final print.
Faithful to the control flow of `fileMerger.py`: note the `if not dfs:
exit(1)` check runs right after the base-directory loop, before the
Haralick and Haar directories are looked at. -/
def run (fs : FS) (merge_haralick merge_haar : Bool) :
    RunResult × List String :=
  match fs.base with
  | none => (.osError, [])
  | some d =>
    let csv_files := csvEntries d
    let log0 : List String :=
      if csv_files = [] then ["No CSV files found in the specified folder."] else []
    let s1 := csv_files.foldl baseStep ([], log0)
    if s1.1 = [] then
      (.exitFail, s1.2 ++
        ["No valid DataFrames to merge. Ensure CSV files are not empty and are readable."])
    else
      let s2 :=
        if merge_haralick then
          match fs.hara with
          | some dh =>
            (csvEntries dh).foldl (groupStep folder_haralick "_haralick" false)
              (s1.1, s1.2 ++ ["\nMerging Haralick files..."])
          | none => (s1.1, s1.2 ++ ["No directory found for Haralick features"])
        else s1
      let s3 :=
        if merge_haar then
          match fs.haar with
          | some dh =>
            (csvEntries dh).foldl (groupStep folder_haarlike "_haar" true)
              (s2.1, s2.2 ++ ["\nMerging Haar-like files..."])
          | none => (s2.1, s2.2 ++ ["No directory found for Haar-like features"])
        else s2
      let merged_df := concatCols s3.1
      let suffix := suffixFor merge_haralick merge_haar
      let output_filename := folder_path.dropRight 1 ++ suffix ++ ".csv"
      (.output output_filename merged_df,
        s3.2 ++ ["Saving Final Dataset...", "CSV files merged successfully!"])

/-- Does `pat` occur at none of the positions `0 ≤ i < k` of `l`?  A
decidable way to say that a stem shows the suffix pattern nowhere except,
possibly, at its very end. -/
def noHitBefore (pat l : List Char) : Nat → Bool
  | 0 => true
  | k + 1 => noHitBefore pat l k && !(startsWithL pat (l.drop k))

/-! ## Concrete fixtures used by witnesses and counterexamples -/

/-- A one-column, one-row table. -/
def tOne : Table := ⟨["a"], [[some "1"]]⟩

/-- A two-column, two-row table. -/
def tTwo : Table := ⟨["p", "q"], [[some "2", some "3"], [some "4", some "5"]]⟩

/-- A one-column, one-row Haralick table. -/
def tHar : Table := ⟨["x"], [[some "7"]]⟩

/-- A one-column, one-row Haar table. -/
def tHaar : Table := ⟨["y"], [[some "9"]]⟩

/-- A header-only table: one column, zero data rows. -/
def tHdr : Table := ⟨["q"], []⟩

/-- A base directory holding one usable file. -/
def dW : Dir := [("i.csv", FileData.ok tOne)]

/-- A filesystem with one usable base file and empty optional directories. -/
def fsW : FS := ⟨some dW, some [], some []⟩

/-- What `run fsW` merges. -/
def tIOut : Table := ⟨["i_a"], [[some "1"]]⟩

/-- What `run fsW true true` logs. -/
def logW : List String :=
  ["Merging: 2kyr_new/i.csv", "\nMerging Haralick files...",
   "\nMerging Haar-like files...", "Saving Final Dataset...",
   "CSV files merged successfully!"]

/-- An empty base directory next to a Haralick directory holding a usable
file. -/
def fsC1 : FS := ⟨some [], some [("s_haralick.csv", FileData.ok tHar)], none⟩

/-- Two base files of different heights (one row and two rows). -/
def fsC2 : FS :=
  ⟨some [("a.csv", FileData.ok tOne), ("b.csv", FileData.ok tTwo)], none, none⟩

/-- What `run fsC2 false false` merges. -/
def tC2 : Table :=
  ⟨["a_a", "b_p", "b_q"],
   [[some "1", some "2", some "3"], [none, some "4", some "5"]]⟩

/-- A Haralick file whose stem `a_haralick_haralick` ends with the suffix
`_haralick` but holds it twice. -/
def fsC3 : FS :=
  ⟨some [("b.csv", FileData.ok tOne)],
   some [("a_haralick_haralick.csv", FileData.ok tHar)], none⟩

/-- What `run fsC3 true false` merges. -/
def tC3 : Table := ⟨["b_a", "a_x"], [[some "1", some "7"]]⟩

/-- A Haralick stem with two occurrences of `_haralick` and a Haar stem
with an interior occurrence of `_haar`. -/
def fsC10 : FS :=
  ⟨some [("z.csv", FileData.ok tOne)],
   some [("a_haralick_b_haralick.csv", FileData.ok tHar)],
   some [("m_haar_n.csv", FileData.ok tHaar)]⟩

/-- What `run fsC10 true true` merges. -/
def tC10 : Table := ⟨["z_a", "a_b_x", "m_n_y"], [[some "1", some "7", some "9"]]⟩

/-! ## Helper lemmas -/

lemma startsWithL_self (l : List Char) : startsWithL l l = true := by
  induction l with
  | nil => rfl
  | cons c cs ih => simp [startsWithL, ih]

lemma startsWithL_iff (p l : List Char) : startsWithL p l = true ↔ p <+: l := by
  induction p generalizing l with
  | nil => exact iff_of_true rfl List.nil_prefix
  | cons p ps ih =>
    cases l with
    | nil => exact iff_of_false (by simp [startsWithL]) (by simp)
    | cons c cs => simp [startsWithL, ih, List.cons_prefix_cons]

lemma endsWithL_iff (l sfx : List Char) : endsWithL l sfx = true ↔ sfx <:+ l := by
  rw [endsWithL, startsWithL_iff]
  exact List.reverse_prefix

lemma replAllFuel_congr (pat repl : List Char) :
    ∀ (f1 f2 : Nat) (l : List Char), l.length ≤ f1 → l.length ≤ f2 →
      replAllFuel pat repl f1 l = replAllFuel pat repl f2 l := by
  intro f1
  induction f1 with
  | zero =>
    intro f2 l h1 _
    have hl : l = [] := List.eq_nil_of_length_eq_zero (Nat.le_zero.mp h1)
    subst hl
    cases f2 <;> rfl
  | succ f1 ih =>
    intro f2 l h1 h2
    cases l with
    | nil => cases f2 <;> rfl
    | cons c rest =>
      cases f2 with
      | zero => simp at h2
      | succ f2 =>
        simp only [replAllFuel]
        split
        · congr 1
          refine ih f2 _ ?_ ?_ <;>
            · simp only [List.length_cons] at h1 h2
              simp only [List.length_drop]
              omega
        · congr 1
          refine ih f2 rest ?_ ?_ <;>
            · simp only [List.length_cons] at h1 h2
              omega

/-- The one-step unfolding of `replAll`. -/
lemma replAll_cons (pat repl : List Char) (c : Char) (rest : List Char) :
    replAll pat repl (c :: rest) =
      if pat ≠ [] ∧ startsWithL pat (c :: rest) then
        repl ++ replAll pat repl (rest.drop (pat.length - 1))
      else
        c :: replAll pat repl rest := by
  show replAllFuel pat repl (c :: rest).length (c :: rest) = _
  simp only [List.length_cons, replAllFuel]
  split
  · congr 1
    refine replAllFuel_congr pat repl rest.length _ _ ?_ (le_refl _)
    simp only [List.length_drop]
    omega
  · rfl

lemma replAll_cons_pos (pat repl : List Char) (c : Char) (rest : List Char)
    (h1 : pat ≠ []) (h2 : startsWithL pat (c :: rest) = true) :
    replAll pat repl (c :: rest) =
      repl ++ replAll pat repl (rest.drop (pat.length - 1)) := by
  rw [replAll_cons]
  exact if_pos ⟨h1, h2⟩

lemma replAll_cons_neg (pat repl : List Char) (c : Char) (rest : List Char)
    (h2 : startsWithL pat (c :: rest) = false) :
    replAll pat repl (c :: rest) = c :: replAll pat repl rest := by
  rw [replAll_cons]
  exact if_neg (fun h => by simp [h2] at h)

/-- Deleting a non-empty pattern from a word that ends with it and shows it
nowhere else leaves exactly the part before the pattern. -/
lemma replAll_append_pat (pat : List Char) (hp : pat ≠ []) :
    ∀ a : List Char,
      (∀ i, i < a.length → startsWithL pat ((a ++ pat).drop i) = false) →
      replAll pat [] (a ++ pat) = a := by
  intro a
  induction a with
  | nil =>
    intro _
    obtain ⟨p, ps, rfl⟩ : ∃ p ps, pat = p :: ps := by
      cases pat with
      | nil => exact absurd rfl hp
      | cons p ps => exact ⟨p, ps, rfl⟩
    rw [List.nil_append,
      replAll_cons_pos _ _ _ _ hp (startsWithL_self (p :: ps))]
    simp [replAll, replAllFuel, List.drop_length]
  | cons c a' ih =>
    intro h
    have h0 : startsWithL pat (c :: (a' ++ pat)) = false := by
      simpa using h 0 (Nat.succ_pos _)
    rw [List.cons_append, replAll_cons_neg pat [] c (a' ++ pat) h0,
      ih (fun i hi => by simpa using h (i + 1) (Nat.succ_lt_succ hi))]

lemma lastDot_stem_csv (stem : List Char) :
    lastDot (stem ++ ['.', 'c', 's', 'v']) = some stem.length := by
  induction stem with
  | nil => rfl
  | cons c cs ih => simp [List.cons_append, lastDot, ih]

/-- Root of `os.path.splitext` on a filename of shape `<stem>.csv` where the
stem holds at least one character other than a dot: the stem. -/
lemma splitextRoot_stem_csv (stem : List Char)
    (h : stem.any (fun c => c ≠ '.') = true) :
    splitextRoot ⟨stem ++ ".csv".data⟩ = ⟨stem⟩ := by
  simp only [splitextRoot, lastDot_stem_csv, List.take_left]
  rw [if_pos]
  simpa using h

/-- A step function that appends `contrib e` to the table list turns a fold
into the initial tables followed by all contributions. -/
lemma foldl_fst_eq
    (step : List Table × List String → String × FileData → List Table × List String)
    (contrib : String × FileData → List Table)
    (hstep : ∀ s e, (step s e).1 = s.1 ++ contrib e) :
    ∀ (l : List (String × FileData)) (s : List Table × List String),
      (List.foldl step s l).1 = s.1 ++ (l.map contrib).flatten := by
  intro l
  induction l with
  | nil => intro s; simp
  | cons e l ih =>
    intro s
    rw [List.foldl_cons, ih, hstep, List.map_cons, List.flatten_cons,
      List.append_assoc]

lemma baseStep_fst (s : List Table × List String) (e : String × FileData) :
    (baseStep s e).1 = s.1 ++ baseContrib e := by
  obtain ⟨name, fd⟩ := e
  cases fd with
  | ok df =>
    simp only [baseStep, baseContrib]
    split <;> simp
  | err m => simp [baseStep, baseContrib]

lemma groupStep_fst (folder sfx : String) (echoFile : Bool)
    (s : List Table × List String) (e : String × FileData) :
    (groupStep folder sfx echoFile s e).1 = s.1 ++ groupContrib sfx e := by
  obtain ⟨name, fd⟩ := e
  cases fd with
  | ok df =>
    simp only [groupStep, groupContrib]
    split <;> simp
  | err m => simp [groupStep, groupContrib]

lemma baseTables_eq (d : Dir) :
    baseTables d = ((csvEntries d).map baseContrib).flatten := by
  rw [baseTables, foldl_fst_eq baseStep baseContrib baseStep_fst]
  rfl

lemma groupTables_eq (folder sfx : String) (echoFile : Bool) (d : Dir) :
    groupTables folder sfx echoFile d =
      ((csvEntries d).map (groupContrib sfx)).flatten := by
  rw [groupTables,
    foldl_fst_eq (groupStep folder sfx echoFile) (groupContrib sfx)
      (groupStep_fst folder sfx echoFile)]
  rfl

lemma foldl_baseStep_fst (l : List (String × FileData))
    (s : List Table × List String) :
    (List.foldl baseStep s l).1 = s.1 ++ (l.map baseContrib).flatten :=
  foldl_fst_eq baseStep baseContrib baseStep_fst l s

lemma foldl_groupStep_fst (folder sfx : String) (echoFile : Bool)
    (l : List (String × FileData)) (s : List Table × List String) :
    (List.foldl (groupStep folder sfx echoFile) s l).1 =
      s.1 ++ (l.map (groupContrib sfx)).flatten :=
  foldl_fst_eq (groupStep folder sfx echoFile) (groupContrib sfx)
    (groupStep_fst folder sfx echoFile) l s

/-- A step function that only ever appends to the log keeps the initial log
as a prefix of the fold's log. -/
lemma foldl_snd_mono
    (step : List Table × List String → String × FileData → List Table × List String)
    (h : ∀ s e, ∃ L, (step s e).2 = s.2 ++ L) :
    ∀ (l : List (String × FileData)) (s : List Table × List String),
      ∃ L, (List.foldl step s l).2 = s.2 ++ L := by
  intro l
  induction l with
  | nil => intro s; exact ⟨[], by simp⟩
  | cons e l ih =>
    intro s
    obtain ⟨L1, h1⟩ := h s e
    obtain ⟨L2, h2⟩ := ih (step s e)
    exact ⟨L1 ++ L2, by rw [List.foldl_cons, h2, h1, List.append_assoc]⟩

lemma groupStep_snd_mono (folder sfx : String) (echoFile : Bool)
    (s : List Table × List String) (e : String × FileData) :
    ∃ L, (groupStep folder sfx echoFile s e).2 = s.2 ++ L := by
  obtain ⟨name, fd⟩ := e
  cases fd with
  | ok df =>
    by_cases hdf : df.isEmpty = true
    · exact ⟨(if echoFile then [name] else []) ++
        ["\tAdding: " ++ (folder ++ name)] ++
        ["The file " ++ name ++ " is empty. Skipping."],
        by simp [groupStep, hdf, List.append_assoc]⟩
    · exact ⟨(if echoFile then [name] else []) ++
        ["\tAdding: " ++ (folder ++ name)],
        by simp [groupStep, hdf, List.append_assoc]⟩
  | err m =>
    exact ⟨(if echoFile then [name] else []) ++
      ["\tAdding: " ++ (folder ++ name)] ++
      ["Error reading file " ++ name ++ ": " ++ m],
      by simp [groupStep, List.append_assoc]⟩

lemma foldl_baseStep_init (d : Dir) (lg : List String) :
    (List.foldl baseStep ([], lg) (csvEntries d)).1 = baseTables d := by
  rw [foldl_baseStep_fst, List.nil_append, ← baseTables_eq]

lemma run_base_none (hh hr : Option Dir) (f1 f2 : Bool) :
    run ⟨none, hh, hr⟩ f1 f2 = (.osError, []) := rfl

/-- When the base directory yields no usable table the script takes the
`exit(1)` path, the last log line being the diagnostic message. -/
lemma run_exit (d : Dir) (hh hr : Option Dir) (f1 f2 : Bool)
    (he : baseTables d = []) :
    ∃ L, run ⟨some d, hh, hr⟩ f1 f2 =
      (.exitFail, L ++
        ["No valid DataFrames to merge. Ensure CSV files are not empty and are readable."]) := by
  have h1 : ∀ lg, (List.foldl baseStep ([], lg) (csvEntries d)).1 = [] := by
    intro lg
    rw [foldl_baseStep_init, he]
  simp only [run, h1]
  rw [if_pos trivial]
  exact ⟨_, rfl⟩

lemma run_exit_fst (d : Dir) (hh hr : Option Dir) (f1 f2 : Bool)
    (he : baseTables d = []) :
    (run ⟨some d, hh, hr⟩ f1 f2).1 = .exitFail := by
  obtain ⟨L, hL⟩ := run_exit d hh hr f1 f2 he
  rw [hL]

/-- When the base directory yields at least one table the script reaches
`to_csv`: the result is the concatenation of all loaded tables under the
computed output filename. -/
lemma run_out_fst (d : Dir) (hh hr : Option Dir) (f1 f2 : Bool)
    (hne : baseTables d ≠ []) :
    (run ⟨some d, hh, hr⟩ f1 f2).1 =
      .output (folder_path.dropRight 1 ++ suffixFor f1 f2 ++ ".csv")
        (concatCols (allTables ⟨some d, hh, hr⟩ f1 f2)) := by
  have h1 := foldl_baseStep_init d
  cases f1 <;> cases f2 <;> cases hh <;> cases hr <;>
    · simp only [run, h1]
      rw [if_neg hne]
      simp [foldl_groupStep_fst, h1, allTables, optTables, groupTables_eq,
        baseTables_eq, List.append_assoc]

lemma noHitBefore_spec (pat l : List Char) (k : Nat)
    (h : noHitBefore pat l k = true) :
    ∀ i, i < k → startsWithL pat (l.drop i) = false := by
  induction k with
  | zero => exact fun i hi => absurd hi (Nat.not_lt_zero i)
  | succ k ih =>
    intro i hi
    simp only [noHitBefore, Bool.and_eq_true, Bool.not_eq_true'] at h
    rcases Nat.lt_succ_iff_lt_or_eq.mp hi with h' | rfl
    · exact ih h.1 i h'
    · exact h.2

lemma mem_foldl_snd
    (step : List Table × List String → String × FileData → List Table × List String)
    (hstep : ∀ s e, ∃ L, (step s e).2 = s.2 ++ L)
    (l : List (String × FileData)) (s : List Table × List String)
    (x : String) (hx : x ∈ s.2) : x ∈ (List.foldl step s l).2 := by
  obtain ⟨L, hL⟩ := foldl_snd_mono step hstep l s
  rw [hL]
  exact List.mem_append_left _ hx

/-- Anything the script writes out is the column concatenation of all loaded
tables, under the computed output filename. -/
lemma run_output_name (fs : FS) (f1 f2 : Bool) (nm : String) (t : Table)
    (lg : List String) (h : run fs f1 f2 = (.output nm t, lg)) :
    nm = folder_path.dropRight 1 ++ suffixFor f1 f2 ++ ".csv" ∧
    t = concatCols (allTables fs f1 f2) := by
  obtain ⟨b, hh, hr⟩ := fs
  cases b with
  | none =>
    rw [run_base_none] at h
    exact absurd (congrArg Prod.fst h) (by simp)
  | some d =>
    by_cases he : baseTables d = []
    · have hf := run_exit_fst d hh hr f1 f2 he
      rw [h] at hf
      exact absurd hf (by simp)
    · have hf := run_out_fst d hh hr f1 f2 he
      rw [h] at hf
      have hf' : RunResult.output nm t =
          .output (folder_path.dropRight 1 ++ suffixFor f1 f2 ++ ".csv")
            (concatCols (allTables ⟨some d, hh, hr⟩ f1 f2)) := hf
      injection hf' with h1 h2
      exact ⟨h1, h2⟩

/-- A Haralick/Haar file named `<a><pat>.csv` whose stem shows the pattern
only at its end contributes its table with columns prefixed by `<a>_`. -/
lemma groupContrib_strip (pat : String) (hp : pat.data ≠ [])
    (hnd : pat.data.any (fun c => c ≠ '.') = true)
    (a : List Char) (df : Table)
    (honce : noHitBefore pat.data (a ++ pat.data) a.length = true)
    (hne : df.isEmpty = false) :
    groupContrib pat (⟨(a ++ pat.data) ++ ".csv".data⟩, FileData.ok df) =
      [{ df with cols := df.cols.map (fun col => (⟨a⟩ : String) ++ "_" ++ col) }] := by
  have hstem : splitextRoot ⟨(a ++ pat.data) ++ ".csv".data⟩ = ⟨a ++ pat.data⟩ :=
    splitextRoot_stem_csv (a ++ pat.data)
      (by
        simp only [List.any_append, Bool.or_eq_true]
        exact Or.inr hnd)
  have hrepl : replAllStr pat "" ⟨a ++ pat.data⟩ = ⟨a⟩ := by
    show String.mk (replAll pat.data [] (a ++ pat.data)) = String.mk a
    rw [replAll_append_pat pat.data hp a (noHitBefore_spec _ _ _ honce)]
  simp only [groupContrib]
  rw [hstem, hrepl]
  simp [hne, renameCols]

/-! ## Claims -/

/-- C1, counterexample to the claim as stated: with an empty base directory
and an enabled Haralick directory holding a usable table, the run still
takes the `exit(1)` failure path — the emptiness check runs before the
optional directories are processed, so a directory that would contribute a
usable table does not prevent the failure. -/
theorem claim_C1_counterexample :
    (run fsC1 true false).1 = .exitFail ∧
    groupTables folder_haralick "_haralick" false
      [("s_haralick.csv", FileData.ok tHar)] ≠ [] :=
  ⟨by decide, by decide⟩

/-- C1 (amended): the run terminates with `exit(1)`, the diagnostic
message logged and no output, if and only if the accumulator is empty
right after the base directory has been processed (the check precedes the
optional Haralick/Haar directories); in particular a base directory with
zero CSV files exits non-zero with no output. -/
theorem claim_C1 (fs : FS) (d : Dir) (f1 f2 : Bool) (hb : fs.base = some d) :
    ((run fs f1 f2).1 = .exitFail ↔ baseTables d = []) ∧
    (csvEntries d = [] → (run fs f1 f2).1 = .exitFail) ∧
    ((run fs f1 f2).1 = .exitFail →
      "No valid DataFrames to merge. Ensure CSV files are not empty and are readable."
        ∈ (run fs f1 f2).2) ∧
    (baseTables d = [] → ∀ nm t, (run fs f1 f2).1 ≠ .output nm t) := by
  obtain ⟨b, hh, hr⟩ := fs
  replace hb : b = some d := hb
  subst hb
  by_cases he : baseTables d = []
  · obtain ⟨L, hL⟩ := run_exit d hh hr f1 f2 he
    refine ⟨iff_of_true (by rw [hL]) he, fun _ => by rw [hL], fun _ => ?_,
      fun _ nm t => by rw [hL]; simp⟩
    rw [hL]
    simp
  · have hout := run_out_fst d hh hr f1 f2 he
    refine ⟨iff_of_false (by rw [hout]; simp) he, ?_, ?_, fun h => absurd h he⟩
    · intro hcsv
      exact absurd (by rw [baseTables_eq, hcsv]; rfl) he
    · intro hx
      rw [hout] at hx
      exact absurd hx (by simp)

/-- Witness for C1 at a concrete filesystem. -/
theorem claim_C1_witness :
    fsC1.base = some ([] : Dir) ∧
    ((run fsC1 true false).1 = .exitFail ↔ baseTables ([] : Dir) = []) :=
  ⟨rfl, (claim_C1 fsC1 [] true false rfl).1⟩

/-- C2, counterexample to the claim as stated: merging a one-row table with
a two-row table yields a two-row output — the height of the merged table is
the height of the tallest input, not of the shortest/first input. -/
theorem claim_C2_counterexample :
    (allTables fsC2 false false).map (fun u => u.rows.length) = [1, 2] ∧
    (run fsC2 false false).1 = .output "2kyr_new_AllColumns.csv" tC2 ∧
    tC2.rows.length = 2 ∧ tC2.rows.length ≠ 1 :=
  ⟨by decide, by decide, by decide, by decide⟩

/-- C2 (amended): every produced output is the column concatenation of all
loaded tables; its width is the sum of the input widths and its height the
maximum of the input heights, rows a table does not have being padded with
missing values rather than raising an error. -/
theorem claim_C2 (fs : FS) (f1 f2 : Bool) (nm : String) (t : Table)
    (lg : List String) (h : run fs f1 f2 = (.output nm t, lg)) :
    t = concatCols (allTables fs f1 f2) ∧
    t.cols.length = ((allTables fs f1 f2).map (fun u => u.cols.length)).sum ∧
    t.rows.length =
      ((allTables fs f1 f2).map (fun u => u.rows.length)).foldr Nat.max 0 ∧
    ∀ u ∈ allTables fs f1 f2, ∀ i, u.rows.length ≤ i →
      rowAt u i = List.replicate u.cols.length none := by
  obtain ⟨-, ht⟩ := run_output_name fs f1 f2 nm t lg h
  subst ht
  refine ⟨rfl, ?_, ?_, ?_⟩
  · simp only [concatCols, List.length_flatten, List.map_map]
    rfl
  · simp only [concatCols, List.length_map, List.length_range]
  · intro u _ i hi
    have hn : u.rows[i]? = none := by
      rw [← List.get?_eq_getElem?]
      exact List.get?_eq_none.mpr hi
    simp [rowAt, hn]

/-- Witness for C2 at a concrete run. -/
theorem claim_C2_witness :
    run fsW true true =
      (.output "2kyr_new_AllColumns_imgfeatures.csv" tIOut, logW) ∧
    tIOut = concatCols (allTables fsW true true) := by
  have h : run fsW true true =
      (.output "2kyr_new_AllColumns_imgfeatures.csv" tIOut, logW) := by decide
  exact ⟨h, (claim_C2 fsW true true _ tIOut logW h).1⟩

/-- C3, counterexample to the claim as stated: the Haralick file
`a_haralick_haralick.csv` has a stem ending in `_haralick`, yet its column
`x` is merged as `a_x` (every occurrence of `_haralick` removed), not as
`a_haralick_x` (only the trailing suffix stripped). -/
theorem claim_C3_counterexample :
    endsWithL "a_haralick_haralick".data "_haralick".data = true ∧
    splitextRoot "a_haralick_haralick.csv" = "a_haralick_haralick" ∧
    (run fsC3 true false).1 = .output "2kyr_new_AllColumns_onlyHaralick.csv" tC3 ∧
    tC3.cols = ["b_a", "a_x"] ∧
    "a_haralick_x" ∉ tC3.cols :=
  ⟨by decide, by decide, by decide, by decide, by decide⟩

/-- C3 (amended): a non-empty parseable Haralick (resp. Haar) file whose
stem ends with `_haralick` (resp. `_haar`) and shows the pattern nowhere
earlier in the stem contributes its columns prefixed with the stem minus
that suffix; stems with further occurrences have every occurrence removed,
as C10 records. -/
theorem claim_C3 :
    (∀ (a : List Char) (df : Table),
      noHitBefore "_haralick".data (a ++ "_haralick".data) a.length = true →
      df.isEmpty = false →
      groupContrib "_haralick" (⟨(a ++ "_haralick".data) ++ ".csv".data⟩, FileData.ok df) =
        [{ df with cols := df.cols.map (fun col => (⟨a⟩ : String) ++ "_" ++ col) }]) ∧
    (∀ (a : List Char) (df : Table),
      noHitBefore "_haar".data (a ++ "_haar".data) a.length = true →
      df.isEmpty = false →
      groupContrib "_haar" (⟨(a ++ "_haar".data) ++ ".csv".data⟩, FileData.ok df) =
        [{ df with cols := df.cols.map (fun col => (⟨a⟩ : String) ++ "_" ++ col) }]) :=
  ⟨fun a df h1 h2 => groupContrib_strip "_haralick" (by decide) (by decide) a df h1 h2,
   fun a df h1 h2 => groupContrib_strip "_haar" (by decide) (by decide) a df h1 h2⟩

/-- Witness for C3 at the spec's own example `sample1_haralick.csv`. -/
theorem claim_C3_witness :
    noHitBefore "_haralick".data ("sample1".data ++ "_haralick".data)
      "sample1".data.length = true ∧
    tHar.isEmpty = false ∧
    groupContrib "_haralick"
        (⟨("sample1".data ++ "_haralick".data) ++ ".csv".data⟩, FileData.ok tHar) =
      [{ tHar with
          cols := tHar.cols.map (fun col => (⟨"sample1".data⟩ : String) ++ "_" ++ col) }] :=
  ⟨by decide, by decide, claim_C3.1 "sample1".data tHar (by decide) (by decide)⟩

/-- C4: the output filename is the base directory name without its trailing
separator, followed by the suffix the two switches select — both:
`_AllColumns_imgfeatures`; Haralick only: `_AllColumns_onlyHaralick`; Haar
only: `_AllColumns_onlyHaar`; neither: `_AllColumns` — followed by `.csv`;
and the written CSV opens with exactly the column names, no row-index
column. -/
theorem claim_C4 :
    (∀ (fs : FS) (nm : String) (t : Table) (lg : List String),
      run fs true true = (.output nm t, lg) →
        nm = "2kyr_new_AllColumns_imgfeatures.csv") ∧
    (∀ (fs : FS) (nm : String) (t : Table) (lg : List String),
      run fs true false = (.output nm t, lg) →
        nm = "2kyr_new_AllColumns_onlyHaralick.csv") ∧
    (∀ (fs : FS) (nm : String) (t : Table) (lg : List String),
      run fs false true = (.output nm t, lg) →
        nm = "2kyr_new_AllColumns_onlyHaar.csv") ∧
    (∀ (fs : FS) (nm : String) (t : Table) (lg : List String),
      run fs false false = (.output nm t, lg) →
        nm = "2kyr_new_AllColumns.csv") ∧
    (∀ t : Table, (toCsvLines t).head? = some t.cols) := by
  refine ⟨?_, ?_, ?_, ?_, fun t => rfl⟩ <;>
    · intro fs nm t lg h
      rw [(run_output_name fs _ _ nm t lg h).1]
      rfl

/-- Witness for C4 at a concrete run. -/
theorem claim_C4_witness :
    run fsW true true =
      (.output "2kyr_new_AllColumns_imgfeatures.csv" tIOut, logW) ∧
    "2kyr_new_AllColumns_imgfeatures.csv" = "2kyr_new_AllColumns_imgfeatures.csv" := by
  have h : run fsW true true =
      (.output "2kyr_new_AllColumns_imgfeatures.csv" tIOut, logW) := by decide
  exact ⟨h, claim_C4.1 fsW _ tIOut logW h⟩

/-- C5: a non-empty, parseable CSV file of the base directory contributes a
table whose every column name is the file's stem (filename without
extension, no suffix stripped), an underscore, and the original name. -/
theorem claim_C5 (d : Dir) (name : String) (t : Table)
    (hmem : (name, FileData.ok t) ∈ d)
    (hcsv : endsWithL name.data ".csv".data = true)
    (hne : t.isEmpty = false) :
    ∃ u ∈ baseTables d,
      u.cols = t.cols.map (fun col => splitextRoot name ++ "_" ++ col) ∧
      u.rows = t.rows := by
  have hmem2 : (name, FileData.ok t) ∈ csvEntries d :=
    (List.perm_insertionSort nameLE _).mem_iff.mpr
      (List.mem_filter.mpr ⟨hmem, hcsv⟩)
  refine ⟨renameCols (splitextRoot name) t, ?_, rfl, rfl⟩
  rw [baseTables_eq]
  apply List.mem_flatten.mpr
  refine ⟨baseContrib (name, FileData.ok t), List.mem_map_of_mem _ hmem2, ?_⟩
  simp [baseContrib, hne]

/-- Witness for C5 at a concrete base directory. -/
theorem claim_C5_witness :
    ("i.csv", FileData.ok tOne) ∈ dW ∧
    endsWithL "i.csv".data ".csv".data = true ∧
    tOne.isEmpty = false ∧
    ∃ u ∈ baseTables dW,
      u.cols = tOne.cols.map (fun col => splitextRoot "i.csv" ++ "_" ++ col) ∧
      u.rows = tOne.rows :=
  ⟨by decide, by decide, by decide,
   claim_C5 dW "i.csv" tOne (by decide) (by decide) (by decide)⟩

/-- C6: discovery in a directory keeps exactly the entries whose filename
ends in `.csv`, sorted by the lexicographic string order (the comparator is
the lexicographic order on `String`); and every produced output
concatenates, in order, the base tables, then the Haralick tables (if
enabled), then the Haar tables (if enabled), each group in sorted filename
order. -/
theorem claim_C6 :
    (∀ d : Dir, List.Sorted nameLE (csvEntries d)) ∧
    (∀ (d : Dir) (e : String × FileData),
      e ∈ csvEntries d ↔ e ∈ d ∧ ".csv".data <:+ e.1.data) ∧
    (∀ a b : String, leChars a.data b.data = true ↔ a ≤ b) ∧
    (∀ (fs : FS) (f1 f2 : Bool) (nm : String) (t : Table) (lg : List String),
      run fs f1 f2 = (.output nm t, lg) →
        t = concatCols
          ((match fs.base with | some d => baseTables d | none => []) ++
            optTables f1 fs.hara folder_haralick "_haralick" false ++
            optTables f2 fs.haar folder_haarlike "_haar" true)) := by
  refine ⟨fun d => List.sorted_insertionSort nameLE _, ?_, leChars_iff_le, ?_⟩
  · intro d e
    constructor
    · intro hx
      obtain ⟨h1, h2⟩ :=
        List.mem_filter.mp ((List.perm_insertionSort nameLE _).mem_iff.mp hx)
      exact ⟨h1, (endsWithL_iff _ _).mp h2⟩
    · rintro ⟨h1, h2⟩
      exact (List.perm_insertionSort nameLE _).mem_iff.mpr
        (List.mem_filter.mpr ⟨h1, (endsWithL_iff _ _).mpr h2⟩)
  · intro fs f1 f2 nm t lg h
    exact (run_output_name fs f1 f2 nm t lg h).2

/-- Witness for C6 at a concrete directory and run. -/
theorem claim_C6_witness :
    List.Sorted nameLE (csvEntries dW) ∧
    run fsW true true =
      (.output "2kyr_new_AllColumns_imgfeatures.csv" tIOut, logW) ∧
    tIOut = concatCols
      ((match fsW.base with | some d => baseTables d | none => []) ++
        optTables true fsW.hara folder_haralick "_haralick" false ++
        optTables true fsW.haar folder_haarlike "_haar" true) := by
  have h : run fsW true true =
      (.output "2kyr_new_AllColumns_imgfeatures.csv" tIOut, logW) := by decide
  exact ⟨claim_C6.1 dW, h, claim_C6.2.2.2 fsW true true _ tIOut logW h⟩

/-- C7: a file whose read raises is logged with its filename and the
exception's message, contributes no table, and the loop goes on with the
remaining files — in every one of the three directory loops. -/
theorem claim_C7 :
    (∀ (s : List Table × List String) (name msg : String),
      baseStep s (name, FileData.err msg) =
        (s.1, s.2 ++ ["Merging: " ++ (folder_path ++ name),
          "Error reading file " ++ name ++ ": " ++ msg])) ∧
    (∀ (folder sfx : String) (echoFile : Bool) (s : List Table × List String)
        (name msg : String),
      groupStep folder sfx echoFile s (name, FileData.err msg) =
        (s.1, s.2 ++ (if echoFile then [name] else []) ++
          ["\tAdding: " ++ (folder ++ name),
           "Error reading file " ++ name ++ ": " ++ msg])) ∧
    (∀ (l1 l2 : List (String × FileData)) (s : List Table × List String)
        (name msg : String),
      (List.foldl baseStep s (l1 ++ (name, FileData.err msg) :: l2)).1 =
        (List.foldl baseStep s (l1 ++ l2)).1) ∧
    (∀ (folder sfx : String) (echoFile : Bool)
        (l1 l2 : List (String × FileData)) (s : List Table × List String)
        (name msg : String),
      (List.foldl (groupStep folder sfx echoFile) s
          (l1 ++ (name, FileData.err msg) :: l2)).1 =
        (List.foldl (groupStep folder sfx echoFile) s (l1 ++ l2)).1) := by
  refine ⟨?_, ?_, ?_, ?_⟩
  · intro s name msg
    simp [baseStep, List.append_assoc]
  · intro folder sfx echoFile s name msg
    simp [groupStep, List.append_assoc]
  · intro l1 l2 s name msg
    rw [foldl_baseStep_fst, foldl_baseStep_fst]
    simp [baseContrib]
  · intro folder sfx echoFile l1 l2 s name msg
    rw [foldl_groupStep_fst, foldl_groupStep_fst]
    simp [groupContrib]

/-- Witness for C7 at a concrete failing file. -/
theorem claim_C7_witness :
    baseStep (([], []) : List Table × List String) ("f.csv", FileData.err "boom") =
      ((([], []) : List Table × List String).1,
        (([], []) : List Table × List String).2 ++
          ["Merging: " ++ (folder_path ++ "f.csv"),
           "Error reading file " ++ "f.csv" ++ ": " ++ "boom"]) ∧
    (List.foldl baseStep (([], []) : List Table × List String)
        ([] ++ ("f.csv", FileData.err "boom") :: [("i.csv", FileData.ok tOne)])).1 =
      (List.foldl baseStep (([], []) : List Table × List String)
        ([] ++ [("i.csv", FileData.ok tOne)])).1 :=
  ⟨claim_C7.1 ([], []) "f.csv" "boom",
   claim_C7.2.2.1 [] [("i.csv", FileData.ok tOne)] ([], []) "f.csv" "boom"⟩

/-- C8: a parsed table with zero data rows is logged as empty and skipped
in every directory loop: it contributes no table — hence zero columns to
the merged table — and the run goes on. -/
theorem claim_C8 :
    (∀ (s : List Table × List String) (name : String) (t : Table),
      t.rows = [] →
      baseStep s (name, FileData.ok t) =
        (s.1, s.2 ++ ["Merging: " ++ (folder_path ++ name),
          "The file " ++ name ++ " is empty. Skipping."])) ∧
    (∀ (folder sfx : String) (echoFile : Bool) (s : List Table × List String)
        (name : String) (t : Table),
      t.rows = [] →
      groupStep folder sfx echoFile s (name, FileData.ok t) =
        (s.1, s.2 ++ (if echoFile then [name] else []) ++
          ["\tAdding: " ++ (folder ++ name),
           "The file " ++ name ++ " is empty. Skipping."])) ∧
    (∀ (l1 l2 : List (String × FileData)) (s : List Table × List String)
        (name : String) (t : Table),
      t.rows = [] →
      (List.foldl baseStep s (l1 ++ (name, FileData.ok t) :: l2)).1 =
        (List.foldl baseStep s (l1 ++ l2)).1) ∧
    (∀ (folder sfx : String) (echoFile : Bool)
        (l1 l2 : List (String × FileData)) (s : List Table × List String)
        (name : String) (t : Table),
      t.rows = [] →
      (List.foldl (groupStep folder sfx echoFile) s
          (l1 ++ (name, FileData.ok t) :: l2)).1 =
        (List.foldl (groupStep folder sfx echoFile) s (l1 ++ l2)).1) ∧
    (∀ (l1 l2 : List (String × FileData)) (s : List Table × List String)
        (name : String) (t : Table),
      t.rows = [] →
      concatCols (List.foldl baseStep s (l1 ++ (name, FileData.ok t) :: l2)).1 =
        concatCols (List.foldl baseStep s (l1 ++ l2)).1) := by
  have htE : ∀ t : Table, t.rows = [] → t.isEmpty = true := fun t ht => by
    simp [Table.isEmpty, ht]
  refine ⟨?_, ?_, ?_, ?_, ?_⟩
  · intro s name t ht
    simp [baseStep, htE t ht, List.append_assoc]
  · intro folder sfx echoFile s name t ht
    simp [groupStep, htE t ht, List.append_assoc]
  · intro l1 l2 s name t ht
    rw [foldl_baseStep_fst, foldl_baseStep_fst]
    simp [baseContrib, htE t ht]
  · intro folder sfx echoFile l1 l2 s name t ht
    rw [foldl_groupStep_fst, foldl_groupStep_fst]
    simp [groupContrib, htE t ht]
  · intro l1 l2 s name t ht
    rw [foldl_baseStep_fst, foldl_baseStep_fst]
    simp [baseContrib, htE t ht]

/-- Witness for C8 at a concrete header-only file. -/
theorem claim_C8_witness :
    tHdr.rows = [] ∧
    baseStep (([], []) : List Table × List String) ("e.csv", FileData.ok tHdr) =
      ((([], []) : List Table × List String).1,
        (([], []) : List Table × List String).2 ++
          ["Merging: " ++ (folder_path ++ "e.csv"),
           "The file " ++ "e.csv" ++ " is empty. Skipping."]) :=
  ⟨rfl, claim_C8.1 ([], []) "e.csv" tHdr rfl⟩

/-- C9: a missing base directory ends the run with the uncaught filesystem
error before anything is logged; a missing optional directory, its switch
enabled, is only logged — the run result is the one an empty directory
would give, and the `No directory found` message appears in the log
whenever the run survives the base-directory check. -/
theorem claim_C9 :
    (∀ (hh hr : Option Dir) (f1 f2 : Bool),
      run ⟨none, hh, hr⟩ f1 f2 = (.osError, [])) ∧
    (∀ (d : Dir) (hr : Option Dir) (f2 : Bool),
      (run ⟨some d, none, hr⟩ true f2).1 = (run ⟨some d, some [], hr⟩ true f2).1) ∧
    (∀ (d : Dir) (hr : Option Dir) (f2 : Bool), baseTables d ≠ [] →
      "No directory found for Haralick features"
        ∈ (run ⟨some d, none, hr⟩ true f2).2) ∧
    (∀ (d : Dir) (hh : Option Dir) (f1 : Bool),
      (run ⟨some d, hh, none⟩ f1 true).1 = (run ⟨some d, hh, some []⟩ f1 true).1) ∧
    (∀ (d : Dir) (hh : Option Dir) (f1 : Bool), baseTables d ≠ [] →
      "No directory found for Haar-like features"
        ∈ (run ⟨some d, hh, none⟩ f1 true).2) := by
  refine ⟨fun hh hr f1 f2 => rfl, ?_, ?_, ?_, ?_⟩
  · intro d hr f2
    by_cases he : baseTables d = []
    · rw [run_exit_fst d none hr true f2 he, run_exit_fst d (some []) hr true f2 he]
    · rw [run_out_fst d none hr true f2 he, run_out_fst d (some []) hr true f2 he]
      rfl
  · intro d hr f2 hne
    have h1 := foldl_baseStep_init d
    cases f2 with
    | false =>
      simp only [run, h1]
      rw [if_neg hne]
      simp
    | true =>
      cases hr with
      | none =>
        simp only [run, h1]
        rw [if_neg hne]
        simp
      | some dh =>
        simp only [run, h1, eq_self_iff_true, if_true]
        rw [if_neg hne]
        refine List.mem_append_left _ ?_
        refine mem_foldl_snd _ (groupStep_snd_mono folder_haarlike "_haar" true)
          _ _ _ ?_
        simp
  · intro d hh f1
    by_cases he : baseTables d = []
    · rw [run_exit_fst d hh none f1 true he, run_exit_fst d hh (some []) f1 true he]
    · rw [run_out_fst d hh none f1 true he, run_out_fst d hh (some []) f1 true he]
      rfl
  · intro d hh f1 hne
    have h1 := foldl_baseStep_init d
    cases f1 <;> cases hh <;>
      · simp only [run, h1]
        rw [if_neg hne]
        simp

/-- Witness for C9 at concrete filesystems. -/
theorem claim_C9_witness :
    run ⟨none, none, none⟩ true true = (.osError, []) ∧
    baseTables dW ≠ [] ∧
    "No directory found for Haralick features"
      ∈ (run ⟨some dW, none, none⟩ true false).2 :=
  ⟨claim_C9.1 none none true true, by decide,
   claim_C9.2.2.1 dW none false (by decide)⟩

/-- C10: the normalized identifier removes every occurrence of the group's
pattern from the stem, not only a trailing suffix: the Haralick file
`a_haralick_b_haralick.csv` is merged under the prefix `a_b_`, and the Haar
file `m_haar_n.csv`, whose `_haar` sits in the middle of the stem, is
merged under `m_n_`. -/
theorem claim_C10 :
    (run fsC10 true true).1 = .output "2kyr_new_AllColumns_imgfeatures.csv" tC10 ∧
    tC10.cols = ["z_a", "a_b_x", "m_n_y"] ∧
    replAllStr "_haralick" "" "a_haralick_b_haralick" = "a_b" ∧
    replAllStr "_haar" "" "m_haar_n" = "m_n" :=
  ⟨by decide, by decide, by decide, by decide⟩

end FileMerger
